import Mathlib

/-!
Verification of the browser ECIES implementation (`browser.js`).

The module composes external primitives (secp256k1 curve engine, SHA-512,
AES-CBC, HMAC-SHA256, a secure random source, and the WebCrypto `subtle`
capability).  Those primitives are modelled abstractly by the `Prims`
structure; the curve engine is modelled structurally over an abstract
commutative monoid of points (`bytesToNat sk • basePoint` is the scalar
multiplication performed by `ec.keyFromPrivate(..).getPublic()`, and
`keyA.derive(keyB.getPublic())` is scalar multiplication of the decoded
point followed by taking the X coordinate).  All composition logic of the
source file - validation order, promise rejection vs. synchronous throw,
key-half splitting, MAC-before-decrypt ordering, buffer concatenation -
is embedded exactly.  `encryptRun`/`decryptRun` additionally record the
sequence of symmetric/hash primitive invocations so that ordering claims
can be stated.
-/

namespace Eccrypto

/-- Byte buffers (`Buffer`/`Uint8Array`) as lists of naturals. -/
abbrev Bytes := List Nat

/-- Big-endian interpretation of a byte buffer as a natural number, the way
`elliptic`'s `keyFromPrivate` reads a 32-byte scalar. -/
def bytesToNat (b : Bytes) : Nat :=
  b.foldl (fun a x => a * 256 + x) 0

/-- Fuel-indexed big-endian base-256 digit expansion (most significant
byte first); the fuel only bounds the recursion depth. -/
def natBytesBEAux : Nat → Nat → List Nat
  | 0, _ => []
  | _ + 1, 0 => []
  | fuel + 1, n + 1 => natBytesBEAux fuel ((n + 1) / 256) ++ [(n + 1) % 256]

/-- `BN.prototype.toArray()` with no length argument: minimal big-endian
byte representation, with `0` encoded as the single byte `[0]`.  This is the
encoding `derive` applies to the shared point's X coordinate (`Px.toArray()`). -/
def bnToArray (n : Nat) : Bytes :=
  if n = 0 then [0] else natBytesBEAux n n

/-- Outcome of calling one of the exported functions: a synchronous throw
(an exception raised before any promise is returned), a rejected promise,
or a resolved promise. -/
inductive JSResult (α : Type) where
  | thrown : String → JSResult α
  | rejected : String → JSResult α
  | resolved : α → JSResult α
deriving DecidableEq

/-- Whether the outcome is a synchronous exception. -/
def JSResult.isThrown {α : Type} : JSResult α → Bool
  | .thrown _ => true
  | _ => false

/-- The encryption envelope `{iv, ephemPublicKey, ciphertext, mac}`. -/
structure Envelope where
  iv : Bytes
  ephemPublicKey : Bytes
  ciphertext : Bytes
  mac : Bytes
deriving DecidableEq

/-- The optional `opts` argument of `encrypt`. -/
structure EncOpts where
  ephemPrivateKey : Option Bytes := none
  iv : Option Bytes := none

/-- Invocations of the symmetric/hash primitives, recorded with their
arguments, in execution order. -/
inductive Call where
  | sha512C : Bytes → Call
  | aesEncC : Bytes → Bytes → Bytes → Call
  | aesDecC : Bytes → Bytes → Bytes → Call
  | hmacSignC : Bytes → Bytes → Call
  | hmacVerifyC : Bytes → Bytes → Bytes → Call
deriving DecidableEq

/-- Whether a recorded call is an AES-CBC decryption. -/
def Call.isAesDec : Call → Bool
  | .aesDecC _ _ _ => true
  | _ => false

/-- The external primitives consumed by the module, over an abstract type
of curve points. -/
structure Prims (Point : Type) where
  /-- The secp256k1 base point `G`. -/
  basePoint : Point
  /-- Uncompressed point encoding (`getPublic("arr")`). -/
  encodePoint : Point → Bytes
  /-- Point decoding (`ec.keyFromPublic`). -/
  decodePoint : Bytes → Point
  /-- X coordinate of a point, as a natural number (the `BN` value `Px`). -/
  xCoord : Point → Nat
  /-- `subtle.digest({name: "SHA-512"}, msg)`. -/
  sha512 : Bytes → Bytes
  /-- `aesCbcEncrypt(iv, key, data)`. -/
  aesEnc : Bytes → Bytes → Bytes → Bytes
  /-- `aesCbcDecrypt(iv, key, data)`. -/
  aesDec : Bytes → Bytes → Bytes → Bytes
  /-- `hmacSha256Sign(key, msg)`. -/
  hmacSign : Bytes → Bytes → Bytes
  /-- `ec.sign(msg, privateKey, {canonical: true}).toDER()`. -/
  ecSign : Bytes → Bytes → Bytes
  /-- `ec.verify(msg, sig, publicKey)`. -/
  ecVerify : Bytes → Bytes → Bytes → Bool
  /-- `randomBytes(n)`. -/
  randomBytes : Nat → Bytes
  /-- Whether `cryptoObj.subtle || cryptoObj.webkitSubtle` is non-null. -/
  subtleAvailable : Bool

variable {Point : Type}

/-- `hmacSha256Verify(key, msg, sig)`: WebCrypto HMAC verification is a
constant-time comparison of the recomputed tag against the supplied one. -/
def hmacVerifyFn (P : Prims Point) (key msg sig : Bytes) : Bool :=
  decide (P.hmacSign key msg = sig)

/-- The raw public key computed by `ec.keyFromPrivate(privateKey).getPublic("arr")`:
the encoded point `privateKey * G`. -/
def getPublicRaw [AddCommMonoid Point] (P : Prims Point) (privateKey : Bytes) : Bytes :=
  P.encodePoint (bytesToNat privateKey • P.basePoint)

/-- `getPublic(privateKey)` (synchronous: `Except.error` is a thrown exception). -/
def getPublicFn [AddCommMonoid Point] (P : Prims Point) (privateKey : Bytes) :
    Except String Bytes :=
  if privateKey.length = 32 then
    .ok (getPublicRaw P privateKey)
  else
    .error "Bad private key"

/-- The shared-secret bytes produced inside `derive`:
`new Buffer(keyA.derive(keyB.getPublic()).toArray())`. -/
def deriveRaw [AddCommMonoid Point] (P : Prims Point) (privateKeyA publicKeyB : Bytes) :
    Bytes :=
  bnToArray (P.xCoord (bytesToNat privateKeyA • P.decodePoint publicKeyB))

/-- `derive(privateKeyA, publicKeyB)`: the whole body runs inside the promise
executor, so assertion failures reject the returned promise. -/
def deriveOp [AddCommMonoid Point] (P : Prims Point) (privateKeyA publicKeyB : Bytes) :
    JSResult Bytes :=
  if privateKeyA.length = 32 then
    if publicKeyB.length = 65 then
      if publicKeyB.head? = some 4 then
        .resolved (deriveRaw P privateKeyA publicKeyB)
      else .rejected "Bad public key"
    else .rejected "Bad public key"
  else .rejected "Bad private key"

/-- `sign(privateKey, msg)`: the whole body runs inside the promise executor. -/
def signOp (P : Prims Point) (privateKey msg : Bytes) : JSResult Bytes :=
  if privateKey.length = 32 then
    if 0 < msg.length then
      if msg.length ≤ 32 then
        .resolved (P.ecSign msg privateKey)
      else .rejected "Message is too long"
    else .rejected "Message should not be empty"
  else .rejected "Bad private key"

/-- `verify(publicKey, msg, sig)`: the whole body runs inside the promise
executor; a valid signature resolves with `null`, an invalid one rejects
with `Bad signature`. -/
def verifyOp (P : Prims Point) (publicKey msg sig : Bytes) : JSResult Unit :=
  if publicKey.length = 65 then
    if publicKey.head? = some 4 then
      if 0 < msg.length then
        if msg.length ≤ 32 then
          if P.ecVerify msg sig publicKey then
            .resolved ()
          else .rejected "Bad signature"
        else .rejected "Message is too long"
      else .rejected "Message should not be empty"
    else .rejected "Bad public key"
  else .rejected "Bad public key"

/-- The effective ephemeral private key used by `encrypt`:
`opts.ephemPrivateKey || randomBytes(32)`. -/
def encEphemKey (P : Prims Point) (opts : EncOpts) : Bytes :=
  opts.ephemPrivateKey.getD (P.randomBytes 32)

/-- The effective IV used by `encrypt`: `opts.iv || randomBytes(16)`. -/
def encIv (P : Prims Point) (opts : EncOpts) : Bytes :=
  opts.iv.getD (P.randomBytes 16)

/-- The promise chain of `encrypt` (everything after the synchronous `subtle`
assertion), together with the sequence of primitive calls it performs.
Assertion failures inside the executor reject the promise
(`Except.error`). -/
def encryptRun [AddCommMonoid Point] (P : Prims Point) (publicKeyTo msg : Bytes)
    (opts : EncOpts) : Except String Envelope × List Call :=
  let ephemPrivateKey := encEphemKey P opts
  if ephemPrivateKey.length = 32 then
    let ephemPublicKey := getPublicRaw P ephemPrivateKey
    if publicKeyTo.length = 65 then
      if publicKeyTo.head? = some 4 then
        let px := deriveRaw P ephemPrivateKey publicKeyTo
        let hash := P.sha512 px
        let iv := encIv P opts
        let encryptionKey := hash.take 32
        let macKey := hash.drop 32
        let ciphertext := P.aesEnc iv encryptionKey msg
        let dataToMac := iv ++ ephemPublicKey ++ ciphertext
        let mac := P.hmacSign macKey dataToMac
        (.ok ⟨iv, ephemPublicKey, ciphertext, mac⟩,
          [Call.sha512C px, Call.aesEncC iv encryptionKey msg,
            Call.hmacSignC macKey dataToMac])
      else (.error "Bad public key", [])
    else (.error "Bad public key", [])
  else (.error "Bad private key", [])

/-- `encrypt(publicKeyTo, msg, opts)`: the `subtle` assertion runs before the
promise is constructed, so its failure is a synchronous throw. -/
def encryptOp [AddCommMonoid Point] (P : Prims Point) (publicKeyTo msg : Bytes)
    (opts : EncOpts) : JSResult Envelope :=
  if P.subtleAvailable then
    match (encryptRun P publicKeyTo msg opts).1 with
    | .ok e => .resolved e
    | .error s => .rejected s
  else .thrown "WebCryptoAPI is not available"

/-- `dataToMac` as recomputed by `decrypt`:
`Buffer.concat([opts.iv, opts.ephemPublicKey, opts.ciphertext])`. -/
def dataToMacOf (env : Envelope) : Bytes :=
  env.iv ++ env.ephemPublicKey ++ env.ciphertext

/-- The MAC key `decrypt` derives for an envelope: second half of the SHA-512
digest of the shared secret. -/
def decMacKey [AddCommMonoid Point] (P : Prims Point) (privateKey : Bytes)
    (env : Envelope) : Bytes :=
  (P.sha512 (deriveRaw P privateKey env.ephemPublicKey)).drop 32

/-- The encryption key `decrypt` derives for an envelope: first half of the
SHA-512 digest of the shared secret. -/
def decEncKey [AddCommMonoid Point] (P : Prims Point) (privateKey : Bytes)
    (env : Envelope) : Bytes :=
  (P.sha512 (deriveRaw P privateKey env.ephemPublicKey)).take 32

/-- The promise chain of `decrypt` (everything after the synchronous `subtle`
assertion), together with the sequence of primitive calls it performs. -/
def decryptRun [AddCommMonoid Point] (P : Prims Point) (privateKey : Bytes)
    (env : Envelope) : Except String Bytes × List Call :=
  if privateKey.length = 32 then
    if env.ephemPublicKey.length = 65 then
      if env.ephemPublicKey.head? = some 4 then
        let px := deriveRaw P privateKey env.ephemPublicKey
        let hash := P.sha512 px
        let encryptionKey := hash.take 32
        let macKey := hash.drop 32
        let dataToMac := dataToMacOf env
        if hmacVerifyFn P macKey dataToMac env.mac then
          (.ok (P.aesDec env.iv encryptionKey env.ciphertext),
            [Call.sha512C px, Call.hmacVerifyC macKey dataToMac env.mac,
              Call.aesDecC env.iv encryptionKey env.ciphertext])
        else
          (.error "Bad MAC",
            [Call.sha512C px, Call.hmacVerifyC macKey dataToMac env.mac])
      else (.error "Bad public key", [])
    else (.error "Bad public key", [])
  else (.error "Bad private key", [])

/-- `decrypt(privateKey, opts)`: the `subtle` assertion runs before the
promise is constructed, so its failure is a synchronous throw. -/
def decryptOp [AddCommMonoid Point] (P : Prims Point) (privateKey : Bytes)
    (env : Envelope) : JSResult Bytes :=
  if P.subtleAvailable then
    match (decryptRun P privateKey env).1 with
    | .ok m => .resolved m
    | .error s => .rejected s
  else .thrown "WebCryptoAPI is not available"

/-- The shared secret computed inside `encrypt`:
`derive(ephemPrivateKey, publicKeyTo)`. -/
def encryptPx [AddCommMonoid Point] (P : Prims Point) (publicKeyTo : Bytes)
    (opts : EncOpts) : Bytes :=
  deriveRaw P (encEphemKey P opts) publicKeyTo

/-- The encryption key used by `encrypt`: `hash.slice(0, 32)`. -/
def encryptKey [AddCommMonoid Point] (P : Prims Point) (publicKeyTo : Bytes)
    (opts : EncOpts) : Bytes :=
  (P.sha512 (encryptPx P publicKeyTo opts)).take 32

/-- The MAC key used by `encrypt`: `hash.slice(32)`. -/
def encryptMacKey [AddCommMonoid Point] (P : Prims Point) (publicKeyTo : Bytes)
    (opts : EncOpts) : Bytes :=
  (P.sha512 (encryptPx P publicKeyTo opts)).drop 32

/-- The ciphertext produced by `encrypt`. -/
def encryptCiphertext [AddCommMonoid Point] (P : Prims Point)
    (publicKeyTo msg : Bytes) (opts : EncOpts) : Bytes :=
  P.aesEnc (encIv P opts) (encryptKey P publicKeyTo opts) msg

/-- The envelope produced by a successful `encrypt`. -/
def encryptEnvelope [AddCommMonoid Point] (P : Prims Point)
    (publicKeyTo msg : Bytes) (opts : EncOpts) : Envelope :=
  { iv := encIv P opts
    ephemPublicKey := getPublicRaw P (encEphemKey P opts)
    ciphertext := encryptCiphertext P publicKeyTo msg opts
    mac := P.hmacSign (encryptMacKey P publicKeyTo opts)
      (encIv P opts ++ getPublicRaw P (encEphemKey P opts)
        ++ encryptCiphertext P publicKeyTo msg opts) }

/-- On valid inputs, `encrypt`'s promise chain produces exactly the envelope
above, calling SHA-512, then AES-CBC encryption, then HMAC signing. -/
theorem encryptRun_eq_ok [AddCommMonoid Point] (P : Prims Point)
    (publicKeyTo msg : Bytes) (opts : EncOpts)
    (h1 : (encEphemKey P opts).length = 32)
    (h2 : publicKeyTo.length = 65) (h3 : publicKeyTo.head? = some 4) :
    encryptRun P publicKeyTo msg opts =
      (.ok (encryptEnvelope P publicKeyTo msg opts),
        [Call.sha512C (encryptPx P publicKeyTo opts),
          Call.aesEncC (encIv P opts) (encryptKey P publicKeyTo opts) msg,
          Call.hmacSignC (encryptMacKey P publicKeyTo opts)
            (dataToMacOf (encryptEnvelope P publicKeyTo msg opts))]) := by
  simp [encryptRun, encryptEnvelope, encryptPx, encryptKey, encryptMacKey,
    encryptCiphertext, dataToMacOf, h1, h2, h3]

/-- On valid inputs with a passing MAC check, `decrypt`'s promise chain
resolves with the AES-CBC decryption of the ciphertext, calling SHA-512,
then HMAC verification, then AES-CBC decryption. -/
theorem decryptRun_eq_ok [AddCommMonoid Point] (P : Prims Point)
    (privateKey : Bytes) (env : Envelope)
    (h1 : privateKey.length = 32) (h2 : env.ephemPublicKey.length = 65)
    (h3 : env.ephemPublicKey.head? = some 4)
    (h4 : P.hmacSign (decMacKey P privateKey env) (dataToMacOf env) = env.mac) :
    decryptRun P privateKey env =
      (.ok (P.aesDec env.iv (decEncKey P privateKey env) env.ciphertext),
        [Call.sha512C (deriveRaw P privateKey env.ephemPublicKey),
          Call.hmacVerifyC (decMacKey P privateKey env) (dataToMacOf env) env.mac,
          Call.aesDecC env.iv (decEncKey P privateKey env) env.ciphertext]) := by
  simp [decryptRun, decMacKey, decEncKey, dataToMacOf, hmacVerifyFn, h1, h2, h3]
  simp [decMacKey, dataToMacOf] at h4
  simp [h4]

/-- On valid inputs with a failing MAC check, `decrypt`'s promise chain
rejects with `Bad MAC` after SHA-512 and HMAC verification, performing no
AES-CBC decryption. -/
theorem decryptRun_eq_badMac [AddCommMonoid Point] (P : Prims Point)
    (privateKey : Bytes) (env : Envelope)
    (h1 : privateKey.length = 32) (h2 : env.ephemPublicKey.length = 65)
    (h3 : env.ephemPublicKey.head? = some 4)
    (h4 : P.hmacSign (decMacKey P privateKey env) (dataToMacOf env) ≠ env.mac) :
    decryptRun P privateKey env =
      (.error "Bad MAC",
        [Call.sha512C (deriveRaw P privateKey env.ephemPublicKey),
          Call.hmacVerifyC (decMacKey P privateKey env) (dataToMacOf env) env.mac]) := by
  simp [decryptRun, decMacKey, decEncKey, dataToMacOf, hmacVerifyFn, h1, h2, h3]
  simp [decMacKey, dataToMacOf] at h4
  simp [h4]

/-! ### Properties of the `BN.toArray` encoding -/

theorem natBytesBEAux_eq_digits (fuel : Nat) :
    ∀ n : Nat, n ≤ fuel → natBytesBEAux fuel n = (Nat.digits 256 n).reverse := by
  induction fuel with
  | zero =>
    intro n h
    have hn : n = 0 := Nat.le_zero.mp h
    subst hn
    simp [natBytesBEAux]
  | succ fuel ih =>
    intro n h
    cases n with
    | zero => simp [natBytesBEAux]
    | succ m =>
      have hdiv : (m + 1) / 256 ≤ fuel := by
        have := Nat.div_lt_self (Nat.succ_pos m) (by norm_num : 1 < 256)
        omega
      rw [natBytesBEAux, ih _ hdiv,
        Nat.digits_def' (by norm_num : 1 < 256) (Nat.succ_pos m)]
      simp

theorem bnToArray_eq_digits (n : Nat) :
    bnToArray n = if n = 0 then [0] else (Nat.digits 256 n).reverse := by
  unfold bnToArray
  split
  · rfl
  · exact natBytesBEAux_eq_digits n n le_rfl

/-- A nonzero value is encoded with no leading zero byte. -/
theorem bnToArray_head_ne_zero (n : Nat) (hn : n ≠ 0) :
    (bnToArray n).head? ≠ some 0 := by
  rw [bnToArray_eq_digits, if_neg hn, List.head?_reverse,
    List.getLast?_eq_getLast _ (Nat.digits_ne_nil_iff_ne_zero.mpr hn)]
  intro hcontra
  exact Nat.getLast_digit_ne_zero 256 hn (Option.some_injective _ hcontra)

/-- Values below `256 ^ 31` are encoded in fewer than 32 bytes. -/
theorem bnToArray_length_lt_32 (n : Nat) (hn : n < 256 ^ 31) :
    (bnToArray n).length < 32 := by
  rw [bnToArray_eq_digits]
  by_cases h0 : n = 0
  · simp [h0]
  · rw [if_neg h0, List.length_reverse,
      Nat.digits_len 256 n (by norm_num) h0]
    have := (Nat.lt_pow_iff_log_lt (by norm_num : 1 < 256) h0).mp hn
    omega

/-! ### Concrete instantiation used by the witnesses

The point monoid is `ℕ` with base point `1`, so that scalar multiplication
is literal multiplication; the symmetric primitives are simple computable
stand-ins satisfying the round-trip hypotheses at the witnessed inputs. -/

def wP : Prims Nat where
  basePoint := 1
  encodePoint := fun p => 4 :: (List.replicate 63 0 ++ [p % 256])
  decodePoint := fun b => b.getLastD 0
  xCoord := fun p => p
  sha512 := fun _ => List.replicate 64 7
  aesEnc := fun _ _ d => d
  aesDec := fun _ _ d => d
  hmacSign := fun k m => k ++ m
  ecSign := fun _ _ => [48]
  ecVerify := fun _ _ _ => true
  randomBytes := fun n => List.replicate n 0
  subtleAvailable := true

def wSkA : Bytes := List.replicate 31 0 ++ [1]

def wSkB : Bytes := List.replicate 31 0 ++ [2]

def wPkA : Bytes := 4 :: (List.replicate 63 0 ++ [1])

def wPkB : Bytes := 4 :: (List.replicate 63 0 ++ [2])

/-! ### C7: synchronous input validation of getPublic / sign / verify -/

/-- C7: `getPublic` fails with the invalid-input error for every private key
whose length is not 32; `sign` fails for every private key not of length 32
and every message of length 0 or above 32; `verify` fails for every public
key not of length 65 or whose first byte is not 4, and every message of
length 0 or above 32 — in each case with a fixed error value independent of
the (universally quantified) cryptographic primitives, so before any
cryptographic work. -/
theorem validation_invalid_input {Point : Type} [AddCommMonoid Point]
    (P : Prims Point) (priv msg pub sig : Bytes) :
    (priv.length ≠ 32 → getPublicFn P priv = .error "Bad private key")
    ∧ (priv.length ≠ 32 → signOp P priv msg = .rejected "Bad private key")
    ∧ (priv.length = 32 → msg.length = 0 →
        signOp P priv msg = .rejected "Message should not be empty")
    ∧ (priv.length = 32 → 32 < msg.length →
        signOp P priv msg = .rejected "Message is too long")
    ∧ (pub.length ≠ 65 → verifyOp P pub msg sig = .rejected "Bad public key")
    ∧ (pub.length = 65 → pub.head? ≠ some 4 →
        verifyOp P pub msg sig = .rejected "Bad public key")
    ∧ (pub.length = 65 → pub.head? = some 4 → msg.length = 0 →
        verifyOp P pub msg sig = .rejected "Message should not be empty")
    ∧ (pub.length = 65 → pub.head? = some 4 → 32 < msg.length →
        verifyOp P pub msg sig = .rejected "Message is too long") := by
  refine ⟨?_, ?_, ?_, ?_, ?_, ?_, ?_, ?_⟩
  · intro h
    simp [getPublicFn, h]
  · intro h
    simp [signOp, h]
  · intro h1 h2
    simp [signOp, h1, h2]
  · intro h1 h2
    have h0 : 0 < msg.length := by omega
    have h3 : ¬ msg.length ≤ 32 := by omega
    simp [signOp, h1, h0, h3]
  · intro h
    simp [verifyOp, h]
  · intro h1 h2
    simp [verifyOp, h1, h2]
  · intro h1 h2 h3
    simp [verifyOp, h1, h2, h3]
  · intro h1 h2 h3
    have h0 : 0 < msg.length := by omega
    have h4 : ¬ msg.length ≤ 32 := by omega
    simp [verifyOp, h1, h2, h0, h4]

/-- Witness for C7 at concrete inputs: a 31-byte key, an empty message, a
33-byte message, and a 65-byte public key with first byte 2. -/
theorem validation_invalid_input_witness :
    getPublicFn wP (List.replicate 31 1) = .error "Bad private key"
    ∧ signOp wP (List.replicate 32 1) [] = .rejected "Message should not be empty"
    ∧ signOp wP (List.replicate 32 1) (List.replicate 33 5) = .rejected "Message is too long"
    ∧ verifyOp wP (2 :: List.replicate 64 0) [1] [48] = .rejected "Bad public key" :=
  ⟨(validation_invalid_input wP (List.replicate 31 1) [] [] []).1 (by decide),
    (validation_invalid_input wP (List.replicate 32 1) [] [] []).2.2.1 (by decide) (by decide),
    (validation_invalid_input wP (List.replicate 32 1) (List.replicate 33 5) [] []).2.2.2.1
      (by decide) (by decide),
    (validation_invalid_input wP [] [1] (2 :: List.replicate 64 0) [48]).2.2.2.2.2.1
      (by decide) (by decide)⟩

/-! ### C5: `derive` returns the minimal big-endian X coordinate -/

/-- C5: for a 32-byte private key and a 65-byte public key with first byte 4,
`derive` resolves to the ECDH X coordinate encoded as a minimal big-endian
byte sequence: a nonzero X coordinate is encoded with no leading zero byte,
and an X coordinate below `256 ^ 31` (i.e. with a leading zero byte in a
fixed 32-byte encoding) yields an output shorter than 32 bytes. -/
theorem derive_minimal_bigendian {Point : Type} [AddCommMonoid Point]
    (P : Prims Point) (a b : Bytes)
    (ha : a.length = 32) (hb : b.length = 65) (hhd : b.head? = some 4) :
    deriveOp P a b
      = .resolved (bnToArray (P.xCoord (bytesToNat a • P.decodePoint b)))
    ∧ (P.xCoord (bytesToNat a • P.decodePoint b) ≠ 0 →
        (bnToArray (P.xCoord (bytesToNat a • P.decodePoint b))).head? ≠ some 0)
    ∧ (P.xCoord (bytesToNat a • P.decodePoint b) < 256 ^ 31 →
        (bnToArray (P.xCoord (bytesToNat a • P.decodePoint b))).length < 32) := by
  refine ⟨?_, ?_, ?_⟩
  · simp [deriveOp, deriveRaw, ha, hb, hhd]
  · intro hx
    exact bnToArray_head_ne_zero _ hx
  · intro hx
    exact bnToArray_length_lt_32 _ hx

/-- Witness for C5: with the concrete primitives, `derive wSkA wPkB` resolves
to the single byte `[2]` — an output shorter than 32 bytes with no leading
zero. -/
theorem derive_minimal_bigendian_witness :
    deriveOp wP wSkA wPkB
      = .resolved (bnToArray (wP.xCoord (bytesToNat wSkA • wP.decodePoint wPkB)))
    ∧ (bnToArray (wP.xCoord (bytesToNat wSkA • wP.decodePoint wPkB))).length < 32 :=
  ⟨(derive_minimal_bigendian wP wSkA wPkB (by decide) (by decide) (by decide)).1,
    (derive_minimal_bigendian wP wSkA wPkB (by decide) (by decide) (by decide)).2.2
      (by decide)⟩

/-! ### C9: encrypt validates ephemeral key and recipient key via inner calls -/

/-- C9: when the caller-supplied `opts.ephemPrivateKey` does not have length
32, or `publicKeyTo` is not 65 bytes starting with byte 4, `encrypt` fails
through `getPublic`'s / `derive`'s checks: the promise rejects with the
corresponding validation error, no envelope is produced, and no hash,
symmetric-encryption or MAC primitive is invoked (the call trace is empty). -/
theorem encrypt_inner_validation {Point : Type} [AddCommMonoid Point]
    (P : Prims Point) (publicKeyTo msg : Bytes) (opts : EncOpts) (esk : Bytes) :
    (opts.ephemPrivateKey = some esk → esk.length ≠ 32 →
      (encryptRun P publicKeyTo msg opts).1 = .error "Bad private key"
      ∧ (encryptRun P publicKeyTo msg opts).2 = []
      ∧ (P.subtleAvailable = true →
          encryptOp P publicKeyTo msg opts = .rejected "Bad private key"))
    ∧ ((encEphemKey P opts).length = 32 →
        (publicKeyTo.length ≠ 65 ∨ publicKeyTo.head? ≠ some 4) →
        (encryptRun P publicKeyTo msg opts).1 = .error "Bad public key"
        ∧ (encryptRun P publicKeyTo msg opts).2 = []
        ∧ (P.subtleAvailable = true →
            encryptOp P publicKeyTo msg opts = .rejected "Bad public key")) := by
  constructor
  · intro h1 h2
    have hkey : encEphemKey P opts = esk := by simp [encEphemKey, h1]
    refine ⟨?_, ?_, ?_⟩ <;>
      simp [encryptOp, encryptRun, hkey, h2]
  · intro h1 h2
    have hrun : encryptRun P publicKeyTo msg opts = (.error "Bad public key", []) := by
      rcases h2 with h2 | h2
      · simp [encryptRun, h1, h2]
      · by_cases hl : publicKeyTo.length = 65 <;> simp [encryptRun, h1, hl, h2]
    refine ⟨?_, ?_, ?_⟩ <;> simp [encryptOp, hrun]

def wOptsC9 : EncOpts := { ephemPrivateKey := some [1, 2], iv := none }

/-- Witness for C9: a 2-byte ephemeral key makes `encrypt` reject with the
private-key validation error and an empty call trace; a 32-byte ephemeral key
with a recipient key of wrong first byte rejects with the public-key error. -/
theorem encrypt_inner_validation_witness :
    ((encryptRun wP wPkB [9] wOptsC9).1 = .error "Bad private key"
      ∧ (encryptRun wP wPkB [9] wOptsC9).2 = []
      ∧ encryptOp wP wPkB [9] wOptsC9 = .rejected "Bad private key")
    ∧ ((encryptRun wP (7 :: List.replicate 64 0) [9]
          { ephemPrivateKey := some wSkA, iv := none }).1 = .error "Bad public key"
      ∧ encryptOp wP (7 :: List.replicate 64 0) [9]
          { ephemPrivateKey := some wSkA, iv := none } = .rejected "Bad public key") :=
  ⟨⟨((encrypt_inner_validation wP wPkB [9] wOptsC9 [1, 2]).1 rfl (by decide)).1,
      ((encrypt_inner_validation wP wPkB [9] wOptsC9 [1, 2]).1 rfl (by decide)).2.1,
      ((encrypt_inner_validation wP wPkB [9] wOptsC9 [1, 2]).1 rfl (by decide)).2.2 rfl⟩,
    ((encrypt_inner_validation wP (7 :: List.replicate 64 0) [9]
        { ephemPrivateKey := some wSkA, iv := none } wSkA).2 (by decide)
        (Or.inr (by decide))).1,
    ((encrypt_inner_validation wP (7 :: List.replicate 64 0) [9]
        { ephemPrivateKey := some wSkA, iv := none } wSkA).2 (by decide)
        (Or.inr (by decide))).2.2 rfl⟩

/-! ### C10: encrypt passes a caller-supplied IV through unchanged -/

/-- C10: `encrypt` performs no length validation on a caller-supplied IV: any
`opts.iv` byte sequence is used unchanged as the AES-CBC IV (the recorded
AES-CBC encryption call receives exactly it), appears unchanged as the first
segment of the MACed data, and is returned unchanged as the envelope's `iv`
field. -/
theorem encrypt_iv_passthrough {Point : Type} [AddCommMonoid Point]
    (P : Prims Point) (publicKeyTo msg iv : Bytes) (opts : EncOpts)
    (env : Envelope) (hiv : opts.iv = some iv)
    (henc : encryptOp P publicKeyTo msg opts = .resolved env) :
    env.iv = iv
    ∧ Call.aesEncC iv (encryptKey P publicKeyTo opts) msg
        ∈ (encryptRun P publicKeyTo msg opts).2
    ∧ env.mac = P.hmacSign (encryptMacKey P publicKeyTo opts)
        (iv ++ env.ephemPublicKey ++ env.ciphertext) := by
  have hivD : encIv P opts = iv := by simp [encIv, hiv]
  by_cases hs : P.subtleAvailable = true
  · by_cases h1 : (encEphemKey P opts).length = 32
    · by_cases h2 : publicKeyTo.length = 65
      · by_cases h3 : publicKeyTo.head? = some 4
        · have hrun := encryptRun_eq_ok P publicKeyTo msg opts h1 h2 h3
          simp only [encryptOp, hs, if_true, hrun, JSResult.resolved.injEq] at henc
          subst henc
          refine ⟨by simp [encryptEnvelope, hivD], ?_, ?_⟩
          · rw [hrun]
            simp [hivD]
          · simp [encryptEnvelope, hivD]
        · have hrun : encryptRun P publicKeyTo msg opts = (.error "Bad public key", []) := by
            simp [encryptRun, h1, h2, h3]
          simp [encryptOp, hs, hrun] at henc
      · have hrun : encryptRun P publicKeyTo msg opts = (.error "Bad public key", []) := by
          simp [encryptRun, h1, h2]
        simp [encryptOp, hs, hrun] at henc
    · have hrun : encryptRun P publicKeyTo msg opts = (.error "Bad private key", []) := by
        simp [encryptRun, h1]
      simp [encryptOp, hs, hrun] at henc
  · simp [encryptOp, hs] at henc

def wOptsC10 : EncOpts := { ephemPrivateKey := some wSkA, iv := some [1, 2, 3] }

def wEnvC10 : Envelope :=
  { iv := [1, 2, 3]
    ephemPublicKey := wPkA
    ciphertext := [9, 9]
    mac := List.replicate 32 7 ++ ([1, 2, 3] ++ wPkA ++ [9, 9]) }

/-- Witness for C10 with a 3-byte IV: it flows unchanged into the envelope,
the AES-CBC call, and the MACed data. -/
theorem encrypt_iv_passthrough_witness :
    wEnvC10.iv = [1, 2, 3]
    ∧ Call.aesEncC [1, 2, 3] (encryptKey wP wPkB wOptsC10) [9, 9]
        ∈ (encryptRun wP wPkB [9, 9] wOptsC10).2
    ∧ wEnvC10.mac = wP.hmacSign (encryptMacKey wP wPkB wOptsC10)
        ([1, 2, 3] ++ wEnvC10.ephemPublicKey ++ wEnvC10.ciphertext) :=
  encrypt_iv_passthrough wP wPkB [9, 9] [1, 2, 3] wOptsC10 wEnvC10 rfl (by decide)

/-! ### C2: authenticate-then-decrypt discipline -/

/-- C2: whenever `decrypt` reaches HMAC verification and the recomputed tag
differs from `envelope.mac`, the promise rejects with `Bad MAC` and no
AES-CBC decryption is invoked; moreover on every execution path an AES-CBC
decryption call only ever occurs as the final call, strictly after the HMAC
verification call. -/
theorem decrypt_mac_before_decrypt {Point : Type} [AddCommMonoid Point]
    (P : Prims Point) (privateKey : Bytes) (env : Envelope) :
    (privateKey.length = 32 → env.ephemPublicKey.length = 65 →
      env.ephemPublicKey.head? = some 4 →
      P.hmacSign (decMacKey P privateKey env) (dataToMacOf env) ≠ env.mac →
      (decryptRun P privateKey env).1 = .error "Bad MAC"
      ∧ (∀ c ∈ (decryptRun P privateKey env).2, c.isAesDec = false)
      ∧ (P.subtleAvailable = true →
          decryptOp P privateKey env = .rejected "Bad MAC"))
    ∧ (∀ c ∈ (decryptRun P privateKey env).2, c.isAesDec = true →
        (decryptRun P privateKey env).2 =
          [Call.sha512C (deriveRaw P privateKey env.ephemPublicKey),
            Call.hmacVerifyC (decMacKey P privateKey env) (dataToMacOf env) env.mac,
            c]) := by
  constructor
  · intro h1 h2 h3 h4
    have hrun := decryptRun_eq_badMac P privateKey env h1 h2 h3 h4
    refine ⟨by rw [hrun], ?_, ?_⟩
    · rw [hrun]
      intro c hc
      rcases hc with _ | ⟨_, hc⟩
      · rfl
      · rcases hc with _ | ⟨_, hc⟩
        · rfl
        · cases hc
    · intro hs
      simp [decryptOp, hs, hrun]
  · intro c hc hdec
    by_cases h1 : privateKey.length = 32
    · by_cases h2 : env.ephemPublicKey.length = 65
      · by_cases h3 : env.ephemPublicKey.head? = some 4
        · by_cases h4 : P.hmacSign (decMacKey P privateKey env) (dataToMacOf env) = env.mac
          · have hrun := decryptRun_eq_ok P privateKey env h1 h2 h3 h4
            rw [hrun] at hc ⊢
            rcases hc with _ | ⟨_, hc⟩
            · cases hdec
            · rcases hc with _ | ⟨_, hc⟩
              · cases hdec
              · rcases hc with _ | ⟨_, hc⟩
                · rfl
                · cases hc
          · have hrun := decryptRun_eq_badMac P privateKey env h1 h2 h3 h4
            rw [hrun] at hc
            rcases hc with _ | ⟨_, hc⟩
            · cases hdec
            · rcases hc with _ | ⟨_, hc⟩
              · cases hdec
              · cases hc
        · have hrun : decryptRun P privateKey env = (.error "Bad public key", []) := by
            simp [decryptRun, h1, h2, h3]
          rw [hrun] at hc
          cases hc
      · have hrun : decryptRun P privateKey env = (.error "Bad public key", []) := by
          simp [decryptRun, h1, h2]
        rw [hrun] at hc
        cases hc
    · have hrun : decryptRun P privateKey env = (.error "Bad private key", []) := by
        simp [decryptRun, h1]
      rw [hrun] at hc
      cases hc

def wEnvBadMac : Envelope :=
  { iv := [1, 2, 3]
    ephemPublicKey := wPkA
    ciphertext := [9, 9]
    mac := [0] }

/-- Witness for C2: an envelope whose MAC is wrong makes `decrypt` reject
with `Bad MAC`, with no AES-CBC decryption call in the trace. -/
theorem decrypt_mac_before_decrypt_witness :
    (decryptRun wP wSkB wEnvBadMac).1 = .error "Bad MAC"
    ∧ decryptOp wP wSkB wEnvBadMac = .rejected "Bad MAC" :=
  ⟨((decrypt_mac_before_decrypt wP wSkB wEnvBadMac).1 (by decide) (by decide)
      (by decide) (by decide)).1,
    ((decrypt_mac_before_decrypt wP wSkB wEnvBadMac).1 (by decide) (by decide)
      (by decide) (by decide)).2.2 rfl⟩

/-- The trace of `encrypt` is either empty (validation failed) or exactly
SHA-512, AES-CBC encryption, HMAC signing. -/
theorem encryptRun_trace_cases [AddCommMonoid Point] (P : Prims Point)
    (publicKeyTo msg : Bytes) (opts : EncOpts) :
    (encryptRun P publicKeyTo msg opts).2 = []
    ∨ (encryptRun P publicKeyTo msg opts).2 =
        [Call.sha512C (encryptPx P publicKeyTo opts),
          Call.aesEncC (encIv P opts) (encryptKey P publicKeyTo opts) msg,
          Call.hmacSignC (encryptMacKey P publicKeyTo opts)
            (dataToMacOf (encryptEnvelope P publicKeyTo msg opts))] := by
  by_cases h1 : (encEphemKey P opts).length = 32
  · by_cases h2 : publicKeyTo.length = 65
    · by_cases h3 : publicKeyTo.head? = some 4
      · right
        rw [encryptRun_eq_ok P publicKeyTo msg opts h1 h2 h3]
      · left
        simp [encryptRun, h1, h2, h3]
    · left
      simp [encryptRun, h1, h2]
  · left
    simp [encryptRun, h1]

/-- The trace of `decrypt` is empty (validation failed), or SHA-512 followed
by HMAC verification (MAC mismatch), or those followed by AES-CBC
decryption. -/
theorem decryptRun_trace_cases [AddCommMonoid Point] (P : Prims Point)
    (privateKey : Bytes) (env : Envelope) :
    (decryptRun P privateKey env).2 = []
    ∨ (decryptRun P privateKey env).2 =
        [Call.sha512C (deriveRaw P privateKey env.ephemPublicKey),
          Call.hmacVerifyC (decMacKey P privateKey env) (dataToMacOf env) env.mac]
    ∨ (decryptRun P privateKey env).2 =
        [Call.sha512C (deriveRaw P privateKey env.ephemPublicKey),
          Call.hmacVerifyC (decMacKey P privateKey env) (dataToMacOf env) env.mac,
          Call.aesDecC env.iv (decEncKey P privateKey env) env.ciphertext] := by
  by_cases h1 : privateKey.length = 32
  · by_cases h2 : env.ephemPublicKey.length = 65
    · by_cases h3 : env.ephemPublicKey.head? = some 4
      · by_cases h4 : P.hmacSign (decMacKey P privateKey env) (dataToMacOf env) = env.mac
        · right; right
          rw [decryptRun_eq_ok P privateKey env h1 h2 h3 h4]
        · right; left
          rw [decryptRun_eq_badMac P privateKey env h1 h2 h3 h4]
      · left
        simp [decryptRun, h1, h2, h3]
    · left
      simp [decryptRun, h1, h2]
  · left
    simp [decryptRun, h1]

/-! ### C3: the 64-byte digest is split into two fixed 32-byte halves -/

/-- C3: assuming the 512-bit hash yields 64-byte digests, in both `encrypt`
and `decrypt` every AES-CBC call uses exactly bytes [0,32) of the digest of
the shared secret as its key, every HMAC call uses exactly bytes [32,64) as
its key, both halves are 32 bytes long, and the two halves recompose the
whole digest. -/
theorem key_halves_split {Point : Type} [AddCommMonoid Point]
    (P : Prims Point) (publicKeyTo msg : Bytes) (opts : EncOpts)
    (privateKey : Bytes) (env : Envelope)
    (h64 : ∀ x, (P.sha512 x).length = 64) :
    (∀ i k d, Call.aesEncC i k d ∈ (encryptRun P publicKeyTo msg opts).2 →
        k = (P.sha512 (encryptPx P publicKeyTo opts)).take 32 ∧ k.length = 32)
    ∧ (∀ k m, Call.hmacSignC k m ∈ (encryptRun P publicKeyTo msg opts).2 →
        k = (P.sha512 (encryptPx P publicKeyTo opts)).drop 32 ∧ k.length = 32)
    ∧ (∀ i k d, Call.aesDecC i k d ∈ (decryptRun P privateKey env).2 →
        k = (P.sha512 (deriveRaw P privateKey env.ephemPublicKey)).take 32
        ∧ k.length = 32)
    ∧ (∀ k m s, Call.hmacVerifyC k m s ∈ (decryptRun P privateKey env).2 →
        k = (P.sha512 (deriveRaw P privateKey env.ephemPublicKey)).drop 32
        ∧ k.length = 32)
    ∧ (P.sha512 (encryptPx P publicKeyTo opts)).take 32
        ++ (P.sha512 (encryptPx P publicKeyTo opts)).drop 32
        = P.sha512 (encryptPx P publicKeyTo opts) := by
  have htk : ∀ x : Bytes, ((P.sha512 x).take 32).length = 32 := by
    intro x
    simp [h64 x]
  have hdr : ∀ x : Bytes, ((P.sha512 x).drop 32).length = 32 := by
    intro x
    simp [h64 x]
  refine ⟨?_, ?_, ?_, ?_, List.take_append_drop 32 _⟩
  · intro i k d hc
    rcases encryptRun_trace_cases P publicKeyTo msg opts with htr | htr <;> rw [htr] at hc
    · cases hc
    · rcases hc with _ | ⟨_, hc⟩
      · rcases hc with _ | ⟨_, hc⟩
        · exact ⟨rfl, htk (encryptPx P publicKeyTo opts)⟩
        · rcases hc with _ | ⟨_, hc⟩
          · cases hc
  · intro k m hc
    rcases encryptRun_trace_cases P publicKeyTo msg opts with htr | htr <;> rw [htr] at hc
    · cases hc
    · rcases hc with _ | ⟨_, hc⟩
      · rcases hc with _ | ⟨_, hc⟩
        · rcases hc with _ | ⟨_, hc⟩
          · exact ⟨rfl, hdr (encryptPx P publicKeyTo opts)⟩
          · cases hc
  · intro i k d hc
    rcases decryptRun_trace_cases P privateKey env with htr | htr | htr <;> rw [htr] at hc
    · cases hc
    · rcases hc with _ | ⟨_, hc⟩
      · rcases hc with _ | ⟨_, hc⟩
        · cases hc
    · rcases hc with _ | ⟨_, hc⟩
      · rcases hc with _ | ⟨_, hc⟩
        · rcases hc with _ | ⟨_, hc⟩
          · exact ⟨by simp [decEncKey], by
              simpa [decEncKey] using htk (deriveRaw P privateKey env.ephemPublicKey)⟩
          · cases hc
  · intro k m s hc
    rcases decryptRun_trace_cases P privateKey env with htr | htr | htr <;> rw [htr] at hc
    · cases hc
    · rcases hc with _ | ⟨_, hc⟩
      · rcases hc with _ | ⟨_, hc⟩
        · exact ⟨by simp [decMacKey], by
            simpa [decMacKey] using hdr (deriveRaw P privateKey env.ephemPublicKey)⟩
        · cases hc
    · rcases hc with _ | ⟨_, hc⟩
      · rcases hc with _ | ⟨_, hc⟩
        · exact ⟨by simp [decMacKey], by
            simpa [decMacKey] using hdr (deriveRaw P privateKey env.ephemPublicKey)⟩
        · rcases hc with _ | ⟨_, hc⟩
          · cases hc

/-- Witness for C3: at the concrete primitives, the AES key recorded in the
encryption trace is the first digest half, of length 32, and the two halves
recompose the digest. -/
theorem key_halves_split_witness :
    (encryptKey wP wPkB wOptsC10
        = (wP.sha512 (encryptPx wP wPkB wOptsC10)).take 32
      ∧ (encryptKey wP wPkB wOptsC10).length = 32)
    ∧ (wP.sha512 (encryptPx wP wPkB wOptsC10)).take 32
        ++ (wP.sha512 (encryptPx wP wPkB wOptsC10)).drop 32
        = wP.sha512 (encryptPx wP wPkB wOptsC10) :=
  ⟨(key_halves_split wP wPkB [9, 9] wOptsC10 wSkB wEnvC10 (fun _ => rfl)).1
      (encIv wP wOptsC10) (encryptKey wP wPkB wOptsC10) [9, 9] (by decide),
    (key_halves_split wP wPkB [9, 9] wOptsC10 wSkB wEnvC10
      (fun _ => rfl)).2.2.2.2⟩

/-! ### C4: the MACed data is iv || ephemPublicKey || ciphertext -/

/-- C4: in `encrypt` the MAC stored in the envelope is the HMAC of the plain
concatenation `iv ++ ephemPublicKey ++ ciphertext` (and the recorded HMAC
signing call receives exactly that byte sequence); in `decrypt` the recorded
HMAC verification call receives exactly
`envelope.iv ++ envelope.ephemPublicKey ++ envelope.ciphertext` and checks it
against `envelope.mac`. -/
theorem mac_data_concatenation {Point : Type} [AddCommMonoid Point]
    (P : Prims Point) (publicKeyTo msg : Bytes) (opts : EncOpts)
    (privateKey : Bytes) (env' : Envelope) :
    (∀ env, encryptOp P publicKeyTo msg opts = .resolved env →
      env.mac = P.hmacSign (encryptMacKey P publicKeyTo opts)
          (env.iv ++ env.ephemPublicKey ++ env.ciphertext)
      ∧ Call.hmacSignC (encryptMacKey P publicKeyTo opts)
          (env.iv ++ env.ephemPublicKey ++ env.ciphertext)
          ∈ (encryptRun P publicKeyTo msg opts).2)
    ∧ (∀ k m s, Call.hmacVerifyC k m s ∈ (decryptRun P privateKey env').2 →
        m = env'.iv ++ env'.ephemPublicKey ++ env'.ciphertext ∧ s = env'.mac) := by
  constructor
  · intro env henc
    by_cases hs : P.subtleAvailable = true
    · by_cases h1 : (encEphemKey P opts).length = 32
      · by_cases h2 : publicKeyTo.length = 65
        · by_cases h3 : publicKeyTo.head? = some 4
          · have hrun := encryptRun_eq_ok P publicKeyTo msg opts h1 h2 h3
            simp only [encryptOp, hs, if_true, hrun, JSResult.resolved.injEq] at henc
            subst henc
            constructor
            · simp [encryptEnvelope]
            · rw [hrun]
              simp [encryptEnvelope, dataToMacOf]
          · have hrun : encryptRun P publicKeyTo msg opts
                = (.error "Bad public key", []) := by
              simp [encryptRun, h1, h2, h3]
            simp [encryptOp, hs, hrun] at henc
        · have hrun : encryptRun P publicKeyTo msg opts
              = (.error "Bad public key", []) := by
            simp [encryptRun, h1, h2]
          simp [encryptOp, hs, hrun] at henc
      · have hrun : encryptRun P publicKeyTo msg opts
            = (.error "Bad private key", []) := by
          simp [encryptRun, h1]
        simp [encryptOp, hs, hrun] at henc
    · simp [encryptOp, hs] at henc
  · intro k m s hc
    rcases decryptRun_trace_cases P privateKey env' with htr | htr | htr <;>
      rw [htr] at hc
    · cases hc
    · rcases hc with _ | ⟨_, hc⟩
      · rcases hc with _ | ⟨_, hc⟩
        · exact ⟨rfl, rfl⟩
        · cases hc
    · rcases hc with _ | ⟨_, hc⟩
      · rcases hc with _ | ⟨_, hc⟩
        · exact ⟨rfl, rfl⟩
        · rcases hc with _ | ⟨_, hc⟩
          · cases hc

/-- Witness for C4 on the concrete envelope produced with a caller-supplied
IV and ephemeral key. -/
theorem mac_data_concatenation_witness :
    wEnvC10.mac = wP.hmacSign (encryptMacKey wP wPkB wOptsC10)
        (wEnvC10.iv ++ wEnvC10.ephemPublicKey ++ wEnvC10.ciphertext)
    ∧ Call.hmacSignC (encryptMacKey wP wPkB wOptsC10)
        (wEnvC10.iv ++ wEnvC10.ephemPublicKey ++ wEnvC10.ciphertext)
        ∈ (encryptRun wP wPkB [9, 9] wOptsC10).2 :=
  (mac_data_concatenation wP wPkB [9, 9] wOptsC10 wSkB wEnvBadMac).1
    wEnvC10 (by decide)

/-! ### C6: ECDH symmetry of derive -/

/-- C6: for valid 32-byte private keys whose public keys are well-formed
(65 bytes, first byte 4) and decode back to the scalar multiples of the base
point they encode, `derive(skA, pkB)` and `derive(skB, pkA)` resolve to
identical byte sequences — because `a • (b • G) = b • (a • G)`. -/
theorem derive_symmetric {Point : Type} [AddCommMonoid Point]
    (P : Prims Point) (skA skB pkA pkB : Bytes)
    (hpkA : getPublicFn P skA = .ok pkA) (hpkB : getPublicFn P skB = .ok pkB)
    (hlenA : pkA.length = 65) (hhdA : pkA.head? = some 4)
    (hlenB : pkB.length = 65) (hhdB : pkB.head? = some 4)
    (hdecA : P.decodePoint pkA = bytesToNat skA • P.basePoint)
    (hdecB : P.decodePoint pkB = bytesToNat skB • P.basePoint) :
    deriveOp P skA pkB = deriveOp P skB pkA := by
  have hA : skA.length = 32 := by
    by_contra h
    simp [getPublicFn, h] at hpkA
  have hB : skB.length = 32 := by
    by_contra h
    simp [getPublicFn, h] at hpkB
  rw [deriveOp, if_pos hA, if_pos hlenB, if_pos hhdB,
    deriveOp, if_pos hB, if_pos hlenA, if_pos hhdA]
  simp only [deriveRaw]
  rw [hdecA, hdecB, nsmul_left_comm]

/-- Witness for C6 at the concrete key pairs of scalars 1 and 2. -/
theorem derive_symmetric_witness :
    deriveOp wP wSkA wPkB = deriveOp wP wSkB wPkA :=
  derive_symmetric wP wSkA wSkB wPkA wPkB rfl rfl (by decide)
    (by decide) (by decide) (by decide) (by decide) (by decide)

/-! ### C1: ECIES round trip -/

/-- C1: for a valid key pair `(skB, pkB)` with `pkB = getPublic(skB)`, any
message, and any choice of IV and ephemeral private key (caller-supplied or
random), provided the point encoding decodes back to the encoded point and
AES-CBC decryption inverts AES-CBC encryption,
`decrypt(skB, encrypt(pkB, m, opts))` resolves to exactly `m`. -/
theorem ecies_roundtrip {Point : Type} [AddCommMonoid Point]
    (P : Prims Point) (skB msg pkB : Bytes) (opts : EncOpts) (env : Envelope)
    (hsub : P.subtleAvailable = true)
    (hpkB : getPublicFn P skB = .ok pkB)
    (hesk : (encEphemKey P opts).length = 32)
    (hpkBlen : pkB.length = 65) (hpkBhd : pkB.head? = some 4)
    (hepklen : (getPublicRaw P (encEphemKey P opts)).length = 65)
    (hepkhd : (getPublicRaw P (encEphemKey P opts)).head? = some 4)
    (hdecB : P.decodePoint pkB = bytesToNat skB • P.basePoint)
    (hdecE : P.decodePoint (getPublicRaw P (encEphemKey P opts))
        = bytesToNat (encEphemKey P opts) • P.basePoint)
    (hAes : ∀ i k d, P.aesDec i k (P.aesEnc i k d) = d)
    (henc : encryptOp P pkB msg opts = .resolved env) :
    decryptOp P skB env = .resolved msg := by
  have hB : skB.length = 32 := by
    by_contra h
    simp [getPublicFn, h] at hpkB
  have hrun := encryptRun_eq_ok P pkB msg opts hesk hpkBlen hpkBhd
  simp only [encryptOp, hsub, if_true, hrun, JSResult.resolved.injEq] at henc
  subst henc
  have hephem : (encryptEnvelope P pkB msg opts).ephemPublicKey
      = getPublicRaw P (encEphemKey P opts) := rfl
  have hpx2 : deriveRaw P skB (encryptEnvelope P pkB msg opts).ephemPublicKey
      = encryptPx P pkB opts := by
    rw [hephem]
    simp only [deriveRaw, encryptPx]
    rw [hdecE, hdecB, nsmul_left_comm]
  have hmk : decMacKey P skB (encryptEnvelope P pkB msg opts)
      = encryptMacKey P pkB opts := by
    simp only [decMacKey, hpx2, encryptMacKey]
  have hek : decEncKey P skB (encryptEnvelope P pkB msg opts)
      = encryptKey P pkB opts := by
    simp only [decEncKey, hpx2, encryptKey]
  have h4 : P.hmacSign (decMacKey P skB (encryptEnvelope P pkB msg opts))
      (dataToMacOf (encryptEnvelope P pkB msg opts))
      = (encryptEnvelope P pkB msg opts).mac := by
    rw [hmk]
    simp [encryptEnvelope, dataToMacOf]
  have hrun2 := decryptRun_eq_ok P skB (encryptEnvelope P pkB msg opts) hB
    (by rw [hephem]; exact hepklen) (by rw [hephem]; exact hepkhd) h4
  simp only [decryptOp, hsub, if_true, hrun2]
  rw [hek]
  simp [encryptEnvelope, encryptCiphertext, hAes]

/-- Witness for C1: encrypting `[9, 9]` for the key pair of scalar 2 with a
caller-supplied ephemeral key and IV and decrypting with the matching
private key returns `[9, 9]`. -/
theorem ecies_roundtrip_witness :
    decryptOp wP wSkB wEnvC10 = .resolved [9, 9] :=
  ecies_roundtrip wP wSkB [9, 9] wPkB wOptsC10 wEnvC10 rfl rfl
    (by decide) (by decide) (by decide) (by decide) (by decide) (by decide)
    (by decide) (fun _ _ _ => rfl) (by decide)

/-! ### C8: failure channels of the five deferred operations -/

/-- C8 (amended): `sign`, `verify` and `derive` surface every failure through
the returned promise; `encrypt` and `decrypt` surface every failure through
the returned promise except the `subtle`-capability check, which — when the
symmetric/hash backend is absent — raises a synchronous exception before any
promise is returned. -/
theorem deferred_failure_channels {Point : Type} [AddCommMonoid Point]
    (P : Prims Point) (priv msg pub sig privA pubB publicKeyTo sk : Bytes)
    (opts : EncOpts) (env : Envelope) :
    (signOp P priv msg).isThrown = false
    ∧ (verifyOp P pub msg sig).isThrown = false
    ∧ (deriveOp P privA pubB).isThrown = false
    ∧ (P.subtleAvailable = true →
        (encryptOp P publicKeyTo msg opts).isThrown = false
        ∧ (decryptOp P sk env).isThrown = false)
    ∧ (P.subtleAvailable = false →
        encryptOp P publicKeyTo msg opts = .thrown "WebCryptoAPI is not available"
        ∧ decryptOp P sk env = .thrown "WebCryptoAPI is not available") := by
  refine ⟨?_, ?_, ?_, ?_, ?_⟩
  · unfold signOp
    split_ifs <;> rfl
  · unfold verifyOp
    split_ifs <;> rfl
  · unfold deriveOp
    split_ifs <;> rfl
  · intro hs
    constructor
    · cases hrun : (encryptRun P publicKeyTo msg opts).1 <;>
        simp [encryptOp, hs, hrun, JSResult.isThrown]
    · cases hrun : (decryptRun P sk env).1 <;>
        simp [decryptOp, hs, hrun, JSResult.isThrown]
  · intro hs
    constructor <;> simp [encryptOp, decryptOp, hs]

/-- Witness for C8's amended statement at concrete inputs with the backend
available. -/
theorem deferred_failure_channels_witness :
    (signOp wP wSkA [5]).isThrown = false
    ∧ (encryptOp wP wPkB [9] { ephemPrivateKey := none, iv := none }).isThrown
        = false :=
  ⟨(deferred_failure_channels wP wSkA [5] [] [] [] [] wPkB wSkB
      { ephemPrivateKey := none, iv := none } wEnvC10).1,
    ((deferred_failure_channels wP wSkA [5] [] [] [] [] wPkB wSkB
      { ephemPrivateKey := none, iv := none } wEnvC10).2.2.2.1 rfl).1⟩

def wPNoSubtle : Prims Nat :=
  { wP with subtleAvailable := false }

/-- Counterexample to C8 as stated: with the symmetric/hash backend absent,
`encrypt` (and `decrypt`) fail with a synchronous exception — the
PrimitiveUnavailable failure does not surface through a rejected promise. -/
theorem encrypt_throws_when_subtle_missing :
    encryptOp wPNoSubtle wPkB [9] { ephemPrivateKey := none, iv := none }
        = .thrown "WebCryptoAPI is not available"
    ∧ (encryptOp wPNoSubtle wPkB [9]
        { ephemPrivateKey := none, iv := none }).isThrown = true
    ∧ decryptOp wPNoSubtle wSkB wEnvC10 = .thrown "WebCryptoAPI is not available" := by
  refine ⟨rfl, rfl, rfl⟩

end Eccrypto
